/-
  Verification of the pgvictoria wire-protocol engine, configuration store,
  and crypto layer against its natural-language specification.

  The development shallowly embeds the C sources (src/src/libpgvictoria/message.c,
  src/src/libpgvictoria/configuration.c, src/unnamed/part_000) into Lean.
  Buffers are lists of byte values (Nat), machine integers are Nat/Int with
  explicit reductions where overflow matters, and fallible code returns Option.

  Helper routines that belong to the repository but whose implementation is not
  under src/ (the byte codec of utils.c, the frame-extraction helpers, the
  base64 decoder, the master-key provider) are modelled from the spec; each
  such definition carries a doc comment starting with "Modelled from the spec".
  OpenSSL EVP primitives and the filesystem are external collaborators and are
  treated as parameters.
-/
import Mathlib

set_option maxRecDepth 20000
set_option maxHeartbeats 1000000

namespace Pgvictoria

/-! ## Byte-level codec (spec section 4.1) -/

/-- Modelled from the spec: pgvictoria_read_byte reads the byte at a cursor.
The implementation (utils.c) is not under src/; spec 4.1 describes the codec.
Buffers are lists of byte values; reads outside the buffer default to 0. -/
def readByte (data : List Nat) (off : Nat) : Nat :=
  data.getD off 0

/-- Modelled from the spec: pgvictoria_read_int16 reads a big-endian signed
16-bit integer (two bytes, two's complement). -/
def read_int16 (data : List Nat) (off : Nat) : Int :=
  let u := readByte data off * 256 + readByte data (off + 1)
  if u < 32768 then (u : Int) else (u : Int) - 65536

/-- Modelled from the spec: pgvictoria_read_int32 reads a big-endian signed
32-bit integer (four bytes, two's complement). -/
def read_int32 (data : List Nat) (off : Nat) : Int :=
  let u := readByte data off * 16777216 + readByte data (off + 1) * 65536 +
           readByte data (off + 2) * 256 + readByte data (off + 3)
  if u < 2147483648 then (u : Int) else (u : Int) - 4294967296

/-- Modelled from the spec: the four bytes produced by pgvictoria_write_int32,
big-endian, two's complement (the value is reduced modulo 2^32 first). -/
def be32 (v : Int) : List Nat :=
  let w := (v % 4294967296).toNat
  [w / 16777216 % 256, w / 65536 % 256, w / 256 % 256, w % 256]

/-- Modelled from the spec: the two bytes produced by pgvictoria_write_int16,
big-endian, two's complement. -/
def be16 (v : Int) : List Nat :=
  let w := (v % 65536).toNat
  [w / 256 % 256, w % 256]

/-- Byte values of a Lean string literal (ASCII code points); used to write
down the C string literals appearing in the source. -/
def ascii (s : String) : List Nat :=
  s.data.map Char.toNat

/-- Modelled from the spec: the bytes written by pgvictoria_write_string, namely
the bytes of the string followed by a trailing NUL (spec 4.1). -/
def cstr (s : List Nat) : List Nat :=
  s ++ [0]

/-- Modelled from the spec: pgvictoria_read_string returns the NUL-terminated
C string at the cursor; we return its bytes (up to, excluding, the first 0). -/
def readString (data : List Nat) (off : Nat) : List Nat :=
  (data.drop off).takeWhile (fun c => c ≠ 0)

/-- Overwrite the bytes of a buffer starting at a given offset.  This models a
C write into an allocation: writes that fall beyond the message length land in
the allocation slack (allocate_message rounds the capacity up to the alignment
size) and are not part of the message, so they are clipped here. -/
def writeAt (buf : List Nat) (off : Nat) (bs : List Nat) : List Nat :=
  buf.take off ++ bs.take (buf.length - off) ++ buf.drop (off + bs.length)

/-! ## Message frames (message.c) -/

/-- The message envelope of message.c: a kind byte, the wire length, and the
payload bytes (struct message of the spec data model). -/
structure Message where
  kind : Nat
  length : Nat
  data : List Nat
deriving DecidableEq, Repr

/-- pgvictoria_create_startup_message (message.c lines 601-640): builds the
untagged StartupMessage.  Translated write-for-write from the source; the
buffer is zero-initialised (allocate_message) and each pgvictoria_write_*
call becomes a writeAt at the same offset. -/
def pgvictoria_create_startup_message (username database : List Nat)
    (replication : Bool) : Message :=
  let us := username.length
  let ds := database.length
  let size0 := 4 + 4 + 4 + 1 + us + 1 + 8 + 1 + ds + 1 + 17 + 9 + 1
  let size := if replication then size0 + 14 else size0
  let b0 := List.replicate size 0
  let b1 := writeAt b0 0 (be32 (size : Int))
  let b2 := writeAt b1 4 (be32 196608)
  let b3 := writeAt b2 8 (cstr (ascii "user"))
  let b4 := writeAt b3 13 (cstr username)
  let b5 := writeAt b4 (13 + us + 1) (cstr (ascii "database"))
  let b6 := writeAt b5 (13 + us + 1 + 9) (cstr database)
  let b7 := writeAt b6 (13 + us + 1 + 9 + ds + 1) (cstr (ascii "application_name"))
  let b8 := writeAt b7 (13 + us + 1 + 9 + ds + 1 + 17) (cstr (ascii "pgvictoria"))
  let b9 :=
    if replication then
      writeAt (writeAt b8 (13 + us + 1 + 9 + ds + 1 + 17 + 9) (cstr (ascii "replication")))
        (13 + us + 1 + 9 + ds + 1 + 17 + 9 + 12) (cstr (ascii "1"))
    else b8
  { kind := 0, length := size, data := b9 }

/-- pgvictoria_create_auth_scram256_response (message.c lines 460-481): builds
the SASLInitialResponse 'p' frame.  Translated write-for-write from the
source.  Note that the source reserves 4 bytes in the size formula
(1 + 4 + 13 + 4 + 9 + strlen(nounce)) for the SASL payload length but never
writes an int32 into them. -/
def pgvictoria_create_auth_scram256_response (nounce : List Nat) : Message :=
  let size := 1 + 4 + 13 + 4 + 9 + nounce.length
  let b0 := List.replicate size 0
  let b1 := writeAt b0 0 [112]
  let b2 := writeAt b1 1 (be32 ((size : Int) - 1))
  let b3 := writeAt b2 5 (cstr (ascii "SCRAM-SHA-256"))
  let b4 := writeAt b3 22 (cstr (ascii " n,,n=,r="))
  let b5 := writeAt b4 31 (cstr nounce)
  { kind := 112, length := size, data := b5 }

/-! ## Wire-level frame streams and the accumulator scan -/

/-- A well-formed tagged protocol frame: a tag byte and a payload; on the wire
it is the tag, a big-endian i32 length covering the length field and the
payload, then the payload (spec glossary). -/
structure Frame where
  tag : Nat
  payload : List Nat
deriving DecidableEq, Repr

/-- Wire bytes of one tagged frame. -/
def frameBytes (f : Frame) : List Nat :=
  f.tag :: (be32 ((4 : Int) + f.payload.length) ++ f.payload)

/-- Concatenation of a list of frames, as accumulated by the executor. -/
def encodeFrames : List Frame → List Nat
  | [] => []
  | f :: fs => frameBytes f ++ encodeFrames fs

/-- The message that frame extraction yields for a frame lying in the
accumulator: kind is the tag, data is the whole frame (tag, length, payload). -/
def mkMessage (f : Frame) : Message :=
  { kind := f.tag, length := (frameBytes f).length, data := frameBytes f }

/-- Loop body of pgvictoria_has_message (message.c lines 1009-1040).  The C
loop walks the buffer by offset += 1; offset += read_int32(data + offset) with
a size_t offset (arithmetic modulo 2^64); the fuel argument only bounds the
number of iterations and is chosen large enough to be irrelevant for any
well-formed buffer.  The error-logging side effect for tag E is not modelled. -/
def hasMessageAux (type : Nat) (data : List Nat) (data_size : Nat) :
    Nat → Nat → Bool
  | 0, _ => false
  | fuel + 1, offset =>
    if offset < data_size then
      if type == readByte data offset then true
      else
        hasMessageAux type data data_size fuel
          (Int.toNat (((offset : Int) + 1 + read_int32 data (offset + 1)) % 18446744073709551616))
    else false

/-- pgvictoria_has_message (message.c lines 1009-1040): scans the accumulated
buffer frame by frame for a frame starting with the given tag byte. -/
def pgvictoria_has_message (type : Nat) (data : List Nat) (data_size : Nat) : Bool :=
  hasMessageAux type data data_size (data_size + 1) 0

/-- Modelled from the spec: pgvictoria_extract_message_offset (declared in the
repository headers, implementation not under src/) extracts the frame starting
at the given offset (tag byte, i32 length, payload) and returns the offset of
the next frame; spec data model, accumulator operation extract-frame-at-offset. -/
def pgvictoria_extract_message_offset (offset : Nat) (data : List Nat) :
    Nat × Message :=
  let k := readByte data offset
  let len := (read_int32 data (offset + 1)).toNat
  (offset + 1 + len,
   { kind := k, length := 1 + len, data := (data.drop offset).take (1 + len) })

/-- Loop body of the frame scan behind pgvictoria_extract_message_from_data. -/
def extractFromDataAux (type : Nat) (data : List Nat) (data_size : Nat) :
    Nat → Nat → Option Message
  | 0, _ => none
  | fuel + 1, offset =>
    if offset < data_size then
      let k := readByte data offset
      let len := (read_int32 data (offset + 1)).toNat
      if k == type then
        some { kind := k, length := 1 + len, data := (data.drop offset).take (1 + len) }
      else extractFromDataAux type data data_size fuel (offset + 1 + len)
    else none

/-- Modelled from the spec: pgvictoria_extract_message_from_data (declared in
the repository headers, implementation not under src/) extracts the first
frame with the given tag from the accumulated buffer, scanning frame by frame
like pgvictoria_has_message. -/
def pgvictoria_extract_message_from_data (type : Nat) (data : List Nat)
    (data_size : Nat) : Option Message :=
  extractFromDataAux type data data_size (data_size + 1) 0

/-! ## RowDescription / DataRow decoding (message.c) -/

/-- get_number_of_columns (message.c lines 1212-1221): the i16 at offset 5 of a
RowDescription frame; 0 for any other kind. -/
def get_number_of_columns (msg : Message) : Int :=
  if msg.kind == 84 then read_int16 msg.data 5 else 0

/-- The per-column skip of get_column_name: starting at an offset, skip a
NUL-terminated name plus the 18 fixed bytes of column metadata, a given number
of times (the while loop over current < index). -/
def skipColumns (data : List Nat) : Nat → Nat → Nat
  | off, 0 => off
  | off, k + 1 =>
    skipColumns data (off + (readString data off).length + 1 + 4 + 2 + 4 + 2 + 4 + 2) k

/-- get_column_name (message.c lines 1223-1265): walks the RowDescription
payload to the requested column and returns its name; fails when the index is
out of range or the kind is not T. -/
def get_column_name (msg : Message) (index : Nat) : Option (List Nat) :=
  if msg.kind == 84 then
    let cols := read_int16 msg.data 5
    if (index : Int) < cols then
      some (readString msg.data (skipColumns msg.data 7 index))
    else none
  else none

/-- A tuple of the query response: one nullable byte string per column
(struct tuple of message.c; the linked list is modelled by List Tuple). -/
structure Tuple where
  data : List (Option (List Nat))
deriving DecidableEq, Repr

/-- Column loop of create_D_tuple: at each column read the i32 length; when it
is positive copy that many value bytes (advancing past them), otherwise store
a null cell and advance only past the length field. -/
def createDTupleAux (data : List Nat) : Nat → Nat → List (Option (List Nat))
  | _, 0 => []
  | offset, k + 1 =>
    let length := read_int32 data offset
    if 0 < length then
      some ((data.drop (offset + 4)).take length.toNat) ::
        createDTupleAux data (offset + 4 + length.toNat) k
    else
      none :: createDTupleAux data (offset + 4) k

/-- create_D_tuple (message.c lines 1144-1180): decodes a DataRow frame into a
tuple, starting at offset 7 (tag, length, column count), for the given number
of columns. -/
def create_D_tuple (number_of_columns : Int) (msg : Message) : Tuple :=
  { data := createDTupleAux msg.data 7 number_of_columns.toNat }

/-- create_C_tuple (message.c lines 1182-1210): decodes a CommandComplete frame
into a single-cell tuple holding the command tag (frame length minus 5 bytes,
copied from offset 5); the cell is null when that length is not positive. -/
def create_C_tuple (msg : Message) : Tuple :=
  let length := read_int32 msg.data 1 - 5
  { data := [if 0 < length then some ((msg.data.drop 5).take length.toNat) else none] }

/-- The query response record (struct query_response of the spec data model):
column count, ordered column names, tuples in wire order, completion flag. -/
structure QueryResponse where
  number_of_columns : Int
  names : List (List Nat)
  tuples : List Tuple
  is_command_complete : Bool
deriving DecidableEq, Repr

/-- The column-name loop of pgvictoria_query_execute (message.c lines 928-939):
collect the names of columns 0 .. count-1, failing as the source does (goto
error) when get_column_name fails. -/
def collectColumnNames (rmsg : Message) : Nat → Option (List (List Nat))
  | 0 => some []
  | k + 1 =>
    match collectColumnNames rmsg k, get_column_name rmsg k with
    | some acc, some name => some (acc ++ [name])
    | _, _ => none

/-- The DataRow walk of pgvictoria_query_execute (message.c lines 941-965):
while offset < data_size extract the frame at the offset and, when its kind is
D, append the decoded tuple at the tail of the list.  The fuel bounds the
number of iterations and is irrelevant for well-formed buffers. -/
def collectDAux (cols : Int) (data : List Nat) (data_size : Nat) :
    Nat → Nat → List Tuple
  | 0, _ => []
  | fuel + 1, offset =>
    if offset < data_size then
      let r := pgvictoria_extract_message_offset offset data
      let rest := collectDAux cols data data_size fuel r.1
      if r.2.kind == 68 then create_D_tuple cols r.2 :: rest else rest
    else []

/-- The classification phase of pgvictoria_query_execute (message.c lines
910-994), applied to the accumulated reply bytes once the Z sentinel has been
seen: E present fails; else T present builds the tuple response from the first
T frame and all D frames; else C present builds the single-cell command
response; else fails.  The transport loop that fills the accumulator is I/O
and is not part of this function. -/
def pgvictoria_query_execute_classify (data : List Nat) : Option QueryResponse :=
  let n := data.length
  if pgvictoria_has_message 69 data n then none
  else if pgvictoria_has_message 84 data n then
    match pgvictoria_extract_message_from_data 84 data n with
    | none => none
    | some rmsg =>
      let cols := get_number_of_columns rmsg
      match collectColumnNames rmsg cols.toNat with
      | none => none
      | some names =>
        some { number_of_columns := cols, names := names,
               tuples := collectDAux cols data n (n + 1) 0,
               is_command_complete := false }
  else if pgvictoria_has_message 67 data n then
    match pgvictoria_extract_message_from_data 67 data n with
    | none => none
    | some rmsg =>
      some { number_of_columns := 1, names := [],
             tuples := [create_C_tuple rmsg], is_command_complete := true }
  else none

/-! ## Well-formed RowDescription / DataRow payloads (for stating claims) -/

/-- One column of a RowDescription: its name (NUL-free bytes) and the 18 bytes
of fixed metadata (table oid, attnum, type oid, size, modifier, format). -/
structure ColumnDesc where
  name : List Nat
  meta : List Nat
deriving DecidableEq, Repr

/-- Wire bytes of one RowDescription column. -/
def colBytes (c : ColumnDesc) : List Nat :=
  c.name ++ [0] ++ c.meta

/-- Wire bytes of a list of RowDescription columns. -/
def colsBytes : List ColumnDesc → List Nat
  | [] => []
  | c :: cs => colBytes c ++ colsBytes cs

/-- Payload of a RowDescription frame: i16 column count then the columns. -/
def rowDescPayload (cds : List ColumnDesc) : List Nat :=
  be16 (cds.length : Int) ++ colsBytes cds

/-- Wire bytes of one DataRow cell: i32 -1 for NULL, else i32 length and the
value bytes. -/
def cellBytes : Option (List Nat) → List Nat
  | none => be32 (-1)
  | some bs => be32 (bs.length : Int) ++ bs

/-- Wire bytes of a list of DataRow cells. -/
def cellsBytes : List (Option (List Nat)) → List Nat
  | [] => []
  | c :: cs => cellBytes c ++ cellsBytes cs

/-- Payload of a DataRow frame: i16 column count then the cells. -/
def dataRowPayload (cells : List (Option (List Nat))) : List Nat :=
  be16 (cells.length : Int) ++ cellsBytes cells

/-! ## Configuration transfer (configuration.c) -/

/-- struct server (pgvictoria.h): the fields compared by copy_server plus the
remaining identity fields. -/
structure ServerCfg where
  name : String
  host : String
  port : Int
  primary : Bool
  username : String
  version : Int
  minor_version : Int
deriving DecidableEq, Repr

/-- struct user (pgvictoria.h). -/
structure UserCfg where
  username : String
  password : String
deriving DecidableEq, Repr

/-- struct main_configuration together with the common configuration fields
that transfer_configuration reads or writes.  The field log_line_pfx models
the log-line prefix string of the source struct. -/
structure MainConfiguration where
  host : String
  log_type : Int
  log_level : Int
  log_path : String
  log_mode : Int
  log_rotation_size : Int
  log_rotation_age : Int
  log_line_pfx : String
  authentication_timeout : Int
  pidfile : String
  update_process_title : Int
  libev : String
  backlog : Int
  hugepage : Int
  unix_socket_dir : String
  servers : List ServerCfg
  number_of_servers : Int
  users : List UserCfg
  number_of_users : Int
deriving DecidableEq, Repr

/-- restart_int (configuration.c lines 1621-1631): logs and reports whether an
int field differs. -/
def restart_int (e n : Int) : Bool :=
  e != n

/-- restart_string (configuration.c lines 1633-1643): logs and reports whether
a string field differs (strcmp). -/
def restart_string (e n : String) : Bool :=
  e != n

/-- copy_server (configuration.c lines 1584-1612): compares name, host, port
and username of a server slot and reports whether any differ (despite its
name, it copies nothing). -/
def copy_server (dst src : ServerCfg) : Bool :=
  restart_string dst.name src.name || restart_string dst.host src.host ||
    restart_int dst.port src.port || restart_string dst.username src.username

/-- copy_user (configuration.c lines 1614-1619): copies a user slot. -/
def copy_user (_dst src : UserCfg) : UserCfg :=
  src

/-- transfer_configuration (configuration.c lines 1504-1582), statement by
statement: hot fields are copied, the log-restart block copies the log fields,
restart-required fields set the changed flag.  The pidfile branch calls
restart_string but discards its result, exactly as the source does. -/
def transfer_configuration (config reload : MainConfiguration) :
    MainConfiguration × Bool :=
  let changed := false
  let changed := changed || restart_string config.host reload.host
  let changed := changed || restart_int config.log_type reload.log_type
  let config := { config with log_level := reload.log_level }
  let config :=
    if restart_string config.log_path reload.log_path ||
        restart_int config.log_rotation_size reload.log_rotation_size ||
        restart_int config.log_rotation_age reload.log_rotation_age ||
        restart_int config.log_mode reload.log_mode then
      { config with
        log_rotation_size := reload.log_rotation_size,
        log_rotation_age := reload.log_rotation_age,
        log_mode := reload.log_mode,
        log_line_pfx := reload.log_line_pfx,
        log_path := reload.log_path }
    else config
  let config := { config with authentication_timeout := reload.authentication_timeout }
  let _pidfile_logged :=
    if reload.pidfile != "" then restart_string config.pidfile reload.pidfile
    else false
  let changed := changed || restart_string config.libev reload.libev
  let config := { config with backlog := reload.backlog }
  let changed := changed || restart_int config.hugepage reload.hugepage
  let changed := changed || restart_int config.update_process_title reload.update_process_title
  let changed := changed || restart_string config.unix_socket_dir reload.unix_socket_dir
  let changed := changed ||
    (List.zip config.servers reload.servers).any (fun p => copy_server p.1 p.2)
  let changed := changed || restart_int config.number_of_servers reload.number_of_servers
  let config := { config with
    users := (List.zip config.users reload.users).map (fun p => copy_user p.1 p.2),
    number_of_users := reload.number_of_users }
  (config, changed)

/-- A baseline main configuration for evaluating transfer_configuration. -/
def baseCfgC6 : MainConfiguration :=
  { host := "localhost", log_type := 0, log_level := 5, log_path := "/tmp/log",
    log_mode := 0, log_rotation_size := 0, log_rotation_age := 0,
    log_line_pfx := "%Y", authentication_timeout := 5, pidfile := "old.pid",
    update_process_title := 1, libev := "auto", backlog := 16, hugepage := 0,
    unix_socket_dir := "/tmp",
    servers := [{ name := "primary", host := "db1", port := 5432,
                  primary := false, username := "repl", version := 17,
                  minor_version := 0 }],
    number_of_servers := 1,
    users := [{ username := "repl", password := "secret" }],
    number_of_users := 1 }

/-- The reload configuration differing from the baseline only in a non-empty
pidfile. -/
def reloadCfgC6 : MainConfiguration :=
  { baseCfgC6 with pidfile := "new.pid" }

/-! ## Users-file reader (configuration.c lines 571-718) -/

/-- The C isspace class used by the configuration parser (space, tab, newline,
vertical tab, form feed, carriage return). -/
def isspaceB (c : Nat) : Bool :=
  c == 32 || c == 9 || c == 10 || c == 11 || c == 12 || c == 13

/-- is_empty_string (configuration.c lines 1645-1671): true for the empty
string and for strings of whitespace only. -/
def is_empty_string (s : List Nat) : Bool :=
  s.all isspaceB

/-- The scanning loop of remove_leading_whitespace_and_comments: walk the bytes
after the leading whitespace, stop at a comment character, append every byte
to the result and remember the index (in the coordinates of the original
string) of the last non-whitespace byte. -/
def rlwacLoop : List Nat → Nat → Int → List Nat → List Nat × Int
  | [], _, last, result => (result, last)
  | c :: rest, i, last, result =>
    if c == 59 || c == 35 then (result, last)
    else rlwacLoop rest (i + 1) (if isspaceB c then last else (i : Int)) (result ++ [c])

/-- remove_leading_whitespace_and_comments (configuration.c lines 1673-1716):
skip leading whitespace, copy until a comment character, then write a NUL at
last_non_whitespace_index + 1 (an index in the coordinates of the original
string; the write is a truncation when it falls inside the result and has no
observable effect otherwise, matching the C buffer write). -/
def remove_leading_whitespace_and_comments (s : List Nat) : List Nat :=
  let i0 := (s.takeWhile isspaceB).length
  let r := rlwacLoop (s.drop i0) i0 (-1) []
  if r.2 == -1 then r.1
  else
    let t := (r.2 + 1).toNat
    if t < r.1.length then r.1.take t else r.1

/-- strtok-style split of a byte string on the colon delimiter (58): the list
of maximal delimiter-free runs, empties removed by the caller. -/
def splitOnColon : List Nat → List (List Nat)
  | [] => [[]]
  | c :: rest =>
    if c == 58 then [] :: splitOnColon rest
    else
      match splitOnColon rest with
      | t :: ts => (c :: t) :: ts
      | [] => [[c]]

/-- Outcome of pgvictoria_read_users_configuration: the returned status, the
log of stores into config->common.users (index, username, password), and the
number_of_users written after the loop (none when an error path returned
before reaching it). -/
structure UsersReadOutcome where
  status : Nat
  stores : List (Nat × List Nat × List Nat)
  number_of_users : Option Nat
deriving DecidableEq, Repr

/-- The line loop of pgvictoria_read_users_configuration (configuration.c
lines 600-663) and the post-loop check (lines 665-670): skip blank lines, trim
comments, split on the first colon, decode and decrypt the payload (the dec
oracle models pgvictoria_base64_decode followed by pgvictoria_decrypt with the
master key, both implemented outside src/), store the entry at the current
index when the username and password fit their fixed buffers, and increment
the index; after the loop, number_of_users is set and a count above
NUMBER_OF_USERS = 64 yields status 3. -/
def readUsersLoop (dec : List Nat → Option (List Nat)) :
    List (List Nat) → Nat → List (Nat × List Nat × List Nat) → UsersReadOutcome
  | [], index, stores =>
    { status := if index > 64 then 3 else 0, stores := stores,
      number_of_users := some index }
  | line :: rest, index, stores =>
    if is_empty_string line then readUsersLoop dec rest index stores
    else
      let trimmed := remove_leading_whitespace_and_comments line
      if is_empty_string trimmed then readUsersLoop dec rest index stores
      else
        match (splitOnColon trimmed).filter (fun t => t ≠ []) with
        | username :: b64 :: _ =>
          match dec b64 with
          | none => { status := 1, stores := stores, number_of_users := none }
          | some password =>
            let stores' :=
              if username.length < 128 ∧ password.length < 1024 then
                stores ++ [(index, username, password)]
              else stores
            readUsersLoop dec rest (index + 1) stores'
        | _ => { status := 1, stores := stores, number_of_users := none }

/-- pgvictoria_read_users_configuration (configuration.c lines 571-718).  The
file is modelled as its list of lines (fileOk is fopen succeeding), the master
key comes from the external secret provider (Modelled from the spec:
pgvictoria_get_master_key is not under src/), and dec models base64 decoding
plus AES-256-CBC decryption under that key. -/
def pgvictoria_read_users_configuration (fileOk : Bool)
    (masterKey : Option (List Nat)) (dec : List Nat → Option (List Nat))
    (lines : List (List Nat)) : UsersReadOutcome :=
  if ¬fileOk then { status := 1, stores := [], number_of_users := none }
  else
    match masterKey with
    | none => { status := 2, stores := [], number_of_users := none }
    | some _ => readUsersLoop dec lines 0 []

/-- A well-formed users-file line for the given decryption oracle: nonempty
username and payload separated by one colon, no whitespace or comment bytes,
and a payload that decodes and decrypts successfully. -/
def lineGood (dec : List Nat → Option (List Nat)) (l : List Nat) : Prop :=
  let u := l.takeWhile (fun c => c ≠ 58)
  let b := (l.dropWhile (fun c => c ≠ 58)).drop 1
  u ≠ [] ∧ b ≠ [] ∧ l = u ++ 58 :: b ∧
    (∀ c ∈ u, ¬(isspaceB c = true) ∧ c ≠ 59 ∧ c ≠ 35) ∧
    (∀ c ∈ b, ¬(isspaceB c = true) ∧ c ≠ 59 ∧ c ≠ 35 ∧ c ≠ 58) ∧
    (dec b).isSome

instance (dec : List Nat → Option (List Nat)) (l : List Nat) :
    Decidable (lineGood dec l) := by
  unfold lineGood
  infer_instance

/-- The identity decryption oracle (every payload decodes to itself); a
legitimate instantiation of the external base64 + AES pipeline. -/
def decId : List Nat → Option (List Nat) :=
  fun b => some b

/-- A users file with 65 valid lines (one more than NUMBER_OF_USERS): line i is
the two-byte username [97, 65+i], a colon, and the one-byte payload [120]. -/
def linesC10 : List (List Nat) :=
  (List.range 65).map (fun i => [97, 65 + i, 58, 120])

/-- A users file with 66 valid lines, used to exercise the users-file bound. -/
def linesC7 : List (List Nat) :=
  (List.range 66).map (fun i => [98, 65 + i, 58, 121])

/-! ## Symmetric crypto, buffer API (src/unnamed/part_000 lines 456-585) -/

/-- An EVP cipher as used by encrypt_decrypt_buffer: given the direction flag,
key, iv and the whole input, one EVP_CipherUpdate call followed by
EVP_CipherFinal_ex yields the update output and the final output (or fails).
The cipher itself is OpenSSL, external to the repository. -/
structure BufCipher where
  run : Bool → List Nat → List Nat → List Nat → Option (List Nat × List Nat)

/-- get_cipher_buffer (part_000 lines 570-585): the three CBC modes map to
their ciphers and every other mode falls back to AES-256-CBC. -/
def get_cipher_buffer (c256 c192 c128 : BufCipher) (mode : Nat) : BufCipher :=
  if mode == 1 then c256
  else if mode == 2 then c192
  else if mode == 3 then c128
  else c256

/-- encrypt_decrypt_buffer (part_000 lines 468-568): select the cipher, fetch
the master key, derive key and iv (derive models derive_key_iv, i.e.
EVP_BytesToKey with SHA-1, one iteration, no salt), run update and final, set
res_size to the sum of the two output lengths, and on the decrypt path write a
single NUL byte immediately past res_size.  The result is the written bytes
and res_size. -/
def encrypt_decrypt_buffer (c256 c192 c128 : BufCipher)
    (derive : Nat → List Nat → Option (List Nat × List Nat))
    (masterKey : Option (List Nat)) (origin : List Nat) (enc : Bool)
    (mode : Nat) : Option (List Nat × Nat) :=
  let c := get_cipher_buffer c256 c192 c128 mode
  match masterKey with
  | none => none
  | some mk =>
    match derive mode mk with
    | none => none
    | some ki =>
      match c.run enc ki.1 ki.2 origin with
      | none => none
      | some uf =>
        let res_size := uf.1.length + uf.2.length
        some (if enc then uf.1 ++ uf.2 else uf.1 ++ uf.2 ++ [0], res_size)

/-- pgvictoria_encrypt_buffer (part_000 lines 456-460). -/
def pgvictoria_encrypt_buffer (c256 c192 c128 : BufCipher)
    (derive : Nat → List Nat → Option (List Nat × List Nat))
    (masterKey : Option (List Nat)) (origin : List Nat) (mode : Nat) :
    Option (List Nat × Nat) :=
  encrypt_decrypt_buffer c256 c192 c128 derive masterKey origin true mode

/-- pgvictoria_decrypt_buffer (part_000 lines 462-466). -/
def pgvictoria_decrypt_buffer (c256 c192 c128 : BufCipher)
    (derive : Nat → List Nat → Option (List Nat × List Nat))
    (masterKey : Option (List Nat)) (origin : List Nat) (mode : Nat) :
    Option (List Nat × Nat) :=
  encrypt_decrypt_buffer c256 c192 c128 derive masterKey origin false mode

/-- A concrete cipher whose update output is the reversed input and whose
final output is empty; it round-trips, instantiating the EVP contract. -/
def revCipher : BufCipher :=
  { run := fun _enc _key _iv input => some (input.reverse, []) }

/-- A concrete key and iv derivation for the witness. -/
def deriveC8 : Nat → List Nat → Option (List Nat × List Nat) :=
  fun _mode mk => some (mk, mk)

/-! ## Symmetric crypto, file API (src/unnamed/part_000 lines 50-120) -/

/-- Modelled from the spec: pgvictoria_exists (utils, not under src/) tests
whether a path exists; the filesystem is the list of existing paths. -/
def pgvictoria_exists (fs : List String) (p : String) : Bool :=
  fs.contains p

/-- Modelled from the spec: pgvictoria_delete_file (utils, not under src/)
removes a path from the filesystem. -/
def pgvictoria_delete_file (fs : List String) (p : String) : List String :=
  fs.filter (fun q => q ≠ p)

/-- Modelled from the spec: pgvictoria_strip_extension (utils, not under src/)
strips one trailing extension; it fails only on allocation failure, which is
not modelled. -/
def pgvictoria_strip_extension (s : String) : Option String :=
  if s.data.contains '.' then
    some (String.mk (((s.data.reverse.dropWhile (fun c => c ≠ '.')).drop 1).reverse))
  else some s

/-- pgvictoria_encrypt_file (part_000 lines 50-83): refuse a missing source;
derive the destination name when absent (append .aes); call the static
encrypt_file helper and ignore its status; delete the source when it still
exists; return 0.  The helper performs the whole AES file operation and is
abstracted as a filesystem transformer returning its success flag. -/
def pgvictoria_encrypt_file (helper : List String → List String × Bool)
    (fs : List String) (fromP : String) (toP : Option String) :
    List String × Nat :=
  if ¬(pgvictoria_exists fs fromP = true) then (fs, 1)
  else
    let _to := match toP with | some t => t | none => fromP ++ ".aes"
    let r := helper fs
    let fs2 :=
      if pgvictoria_exists r.1 fromP then pgvictoria_delete_file r.1 fromP
      else r.1
    (fs2, 0)

/-- pgvictoria_decrypt_file (part_000 lines 85-120): like encrypt but the
default destination strips one extension (an error there returns 1). -/
def pgvictoria_decrypt_file (helper : List String → List String × Bool)
    (fs : List String) (fromP : String) (toP : Option String) :
    List String × Nat :=
  if ¬(pgvictoria_exists fs fromP = true) then (fs, 1)
  else
    match (match toP with
           | some t => some t
           | none => pgvictoria_strip_extension fromP) with
    | none => (fs, 1)
    | some _t =>
      let r := helper fs
      let fs2 :=
        if pgvictoria_exists r.1 fromP then pgvictoria_delete_file r.1 fromP
        else r.1
      (fs2, 0)

/-- A helper that always reports cipher failure and writes nothing. -/
def failingHelper : List String → List String × Bool :=
  fun fs => (fs, false)

/-! ## Concrete scenario inputs -/

/-- The DataRow frame of scenario S4: one column, the single byte '1'. -/
def s4D : Frame :=
  { tag := 68, payload := dataRowPayload [some [49]] }

/-- The frames of scenario S4: T (one column named ?column?), D, C, Z. -/
def s4Frames : List Frame :=
  [{ tag := 84, payload := rowDescPayload [{ name := ascii "?column?", meta := List.replicate 18 0 }] },
   s4D,
   { tag := 67, payload := ascii "SELECT 1" ++ [0] },
   { tag := 90, payload := [73] }]

/-- Frames for exercising the accumulator scan: an R frame and a Z frame. -/
def c5Frames : List Frame :=
  [{ tag := 82, payload := [0, 0, 0] }, { tag := 90, payload := [73] }]

/-- A DataRow frame whose single column has length field 0 (an empty, non-NULL
value on the wire). -/
def c2ZeroLenMsg : Message :=
  mkMessage { tag := 68, payload := dataRowPayload [some []] }

/-- Cells of the DataRow used to witness the null-cell decoding: a one-byte
value, a NULL, and an empty value. -/
def c2Cells : List (Option (List Nat)) :=
  [some [49], none, some []]

/-- The nonce of scenario S3. -/
def c4Nounce : List Nat :=
  ascii "rOprNGfwEbeRWgbNEkqO"

/-! ## Theorems -/

/-- Claim C3, counterexample: for username alice and database db the
StartupMessage body length written by pgvictoria_create_startup_message is 58,
not 47, and the last byte inside the declared length is the letter a of
pgvictoria, not the claimed terminating NUL. -/
theorem claim_C3_counterexample :
    read_int32 (pgvictoria_create_startup_message (ascii "alice") (ascii "db") false).data 0 = 58 ∧
    (pgvictoria_create_startup_message (ascii "alice") (ascii "db") false).length = 58 ∧
    (pgvictoria_create_startup_message (ascii "alice") (ascii "db") false).data.getD 57 0 = 97 ∧
    ¬ read_int32 (pgvictoria_create_startup_message (ascii "alice") (ascii "db") false).data 0 = 47 := by
  decide

/-- Claim C4 (code bug): for the 20-byte nonce of scenario S3 the four bytes
following the mechanism name SCRAM-SHA-256 and its NUL (offsets 18-21 of the
frame, the slot the size formula reserves for the SASL payload length) are
never written and decode to 0; read at offset 19 they run into the first
payload byte and decode to 32.  Neither position holds the value 29 required
by the claim, because the source never writes the inner length field. -/
theorem claim_C4_scram_length_field_bug :
    read_int32 (pgvictoria_create_auth_scram256_response c4Nounce).data 18 = 0 ∧
    read_int32 (pgvictoria_create_auth_scram256_response c4Nounce).data 19 = 32 ∧
    (pgvictoria_create_auth_scram256_response c4Nounce).data.getD 22 0 = 32 ∧
    ¬ read_int32 (pgvictoria_create_auth_scram256_response c4Nounce).data 18 = 29 ∧
    ¬ read_int32 (pgvictoria_create_auth_scram256_response c4Nounce).data 19 = 29 := by
  decide

/-- Claim C6 (code bug): a reload differing from the baseline only in a
non-empty pidfile makes transfer_configuration return changed = false, because
the source discards the result of restart_string for the pidfile. -/
theorem claim_C6_pidfile_not_flagged :
    reloadCfgC6.pidfile ≠ "" ∧
    baseCfgC6.pidfile ≠ reloadCfgC6.pidfile ∧
    (transfer_configuration baseCfgC6 reloadCfgC6).2 = false := by
  decide

/-- Claim C10 (code bug): on a users file with 65 valid lines,
pgvictoria_read_users_configuration performs a store into
config->common.users at index 64, one past the last valid index of the
64-entry array, before the user-count limit is checked; the limit check after
the loop then returns status 3. -/
theorem claim_C10_store_out_of_bounds :
    ((pgvictoria_read_users_configuration true (some [107]) decId linesC10).stores.map
        (fun s => s.1)).contains 64 = true ∧
    (pgvictoria_read_users_configuration true (some [107]) decId linesC10).status = 3 := by
  decide

/-- Claim C2, counterexample: a DataRow column whose i32 length field is 0
decodes to a null cell, not to an empty non-null byte string, because
create_D_tuple only copies when the length is strictly positive. -/
theorem claim_C2_counterexample :
    (create_D_tuple 1 c2ZeroLenMsg).data = [none] := by
  decide


/-! ### List and byte-level helper lemmas -/

lemma be32_length (v : Int) : (be32 v).length = 4 := rfl

lemma be16_length (v : Int) : (be16 v).length = 2 := rfl

lemma cstr_length (s : List Nat) : (cstr s).length = s.length + 1 := by
  simp [cstr]

@[simp] lemma ascii_user_length : (ascii "user").length = 4 := by decide

@[simp] lemma ascii_database_length : (ascii "database").length = 8 := by decide

@[simp] lemma ascii_application_name_length : (ascii "application_name").length = 16 := by decide

@[simp] lemma ascii_pgvictoria_length : (ascii "pgvictoria").length = 10 := by decide

lemma getD_append_boundary (pre mid rest : List Nat) (j : Nat) (hj : j < mid.length) :
    (pre ++ (mid ++ rest)).getD (pre.length + j) 0 = mid.getD j 0 := by
  rw [List.getD_append_right _ _ _ _ (Nat.le_add_right _ _)]
  simp only [Nat.add_sub_cancel_left]
  exact List.getD_append _ _ _ _ hj

lemma read_int32_be32 (v : Int) (h1 : -2147483648 ≤ v) (h2 : v < 2147483648) :
    read_int32 (be32 v) 0 = v := by
  simp only [read_int32, be32, readByte, List.getD_cons_zero, List.getD_cons_succ]
  have hnn : 0 ≤ v % 4294967296 := Int.emod_nonneg v (by norm_num)
  have hlt : v % 4294967296 < 4294967296 := Int.emod_lt_of_pos v (by norm_num)
  have hwv : ((v % 4294967296).toNat : Int) = v % 4294967296 := Int.toNat_of_nonneg hnn
  omega

lemma read_int32_congr (data : List Nat) (off : Nat) (bs : List Nat)
    (h : ∀ j, j < 4 → data.getD (off + j) 0 = bs.getD j 0) :
    read_int32 data off = read_int32 bs 0 := by
  have h0 := h 0 (by omega)
  have h1 := h 1 (by omega)
  have h2 := h 2 (by omega)
  have h3 := h 3 (by omega)
  simp only [Nat.add_zero] at h0
  simp only [read_int32, readByte, h0, h1, h2, h3, Nat.zero_add]

lemma read_int32_boundary (pre rest : List Nat) (v : Int)
    (h1 : -2147483648 ≤ v) (h2 : v < 2147483648) :
    read_int32 (pre ++ (be32 v ++ rest)) pre.length = v := by
  rw [read_int32_congr (pre ++ (be32 v ++ rest)) pre.length (be32 v)
      (fun j hj => getD_append_boundary pre (be32 v) rest j (by rw [be32_length] <;> omega))]
  exact read_int32_be32 v h1 h2

lemma read_int16_be16 (v : Int) (h1 : 0 ≤ v) (h2 : v < 32768) :
    read_int16 (be16 v) 0 = v := by
  simp only [read_int16, be16, readByte, List.getD_cons_zero, List.getD_cons_succ]
  have hnn : 0 ≤ v % 65536 := Int.emod_nonneg v (by norm_num)
  have hlt : v % 65536 < 65536 := Int.emod_lt_of_pos v (by norm_num)
  have hwv : ((v % 65536).toNat : Int) = v % 65536 := Int.toNat_of_nonneg hnn
  omega

lemma read_int16_congr (data : List Nat) (off : Nat) (bs : List Nat)
    (h : ∀ j, j < 2 → data.getD (off + j) 0 = bs.getD j 0) :
    read_int16 data off = read_int16 bs 0 := by
  have h0 := h 0 (by omega)
  have h1 := h 1 (by omega)
  simp only [Nat.add_zero] at h0
  simp only [read_int16, readByte, h0, h1, Nat.zero_add]

lemma read_int16_boundary (pre rest : List Nat) (v : Int)
    (h1 : 0 ≤ v) (h2 : v < 32768) :
    read_int16 (pre ++ (be16 v ++ rest)) pre.length = v := by
  rw [read_int16_congr (pre ++ (be16 v ++ rest)) pre.length (be16 v)
      (fun j hj => getD_append_boundary pre (be16 v) rest j (by rw [be16_length]; omega))]
  exact read_int16_be16 v h1 h2

/-! ### Buffer-write lemmas -/

lemma writeAt_boundary (done c : List Nat) (k : Nat) :
    writeAt (done ++ List.replicate k 0) done.length c
      = done ++ (c.take k ++ List.replicate (k - c.length) 0) := by
  unfold writeAt
  rw [List.take_left]
  have h1 : (done ++ List.replicate k 0).length - done.length = k := by simp
  rw [h1]
  have h2 : (done ++ List.replicate k 0).drop (done.length + c.length)
      = List.replicate (k - c.length) 0 := by
    rw [List.drop_append, List.drop_replicate]
  rw [h2, List.append_assoc]

lemma writeAt_fill (done c : List Nat) (k : Nat) (h : c.length ≤ k) :
    writeAt (done ++ List.replicate k 0) done.length c
      = (done ++ c) ++ List.replicate (k - c.length) 0 := by
  rw [writeAt_boundary, List.take_all_of_le h, List.append_assoc]

lemma writeAt_fill2 (done c : List Nat) (k off kr : Nat) (hoff : done.length = off)
    (h : c.length ≤ k) (hk : k - c.length = kr) :
    writeAt (done ++ List.replicate k 0) off c = (done ++ c) ++ List.replicate kr 0 := by
  subst hoff hk
  exact writeAt_fill done c k h

lemma writeAt_clip (done s : List Nat) (off : Nat) (hoff : done.length = off) :
    writeAt (done ++ List.replicate s.length 0) off (s ++ [0]) = done ++ s := by
  subst hoff
  rw [writeAt_boundary]
  have h1 : (s ++ [0]).take s.length = s := List.take_left s [0]
  have h2 : s.length - (s ++ [0]).length = 0 := by simp
  rw [h1, h2]
  simp

/-- Claim C3, amended: for every username and database,
pgvictoria_create_startup_message with replication = false produces an
untagged frame whose declared body length is 51 + strlen(username) +
strlen(database) (58 for alice and db, not 47), starting with that i32 length
and the protocol 196608, followed by user NUL username NUL database NUL
(database) NUL application_name NUL and the ten bytes of pgvictoria WITHOUT a
terminating NUL and WITHOUT the extra parameter-list NUL: the size formula
counts 9 + 1 bytes for the application name value, so both trailing NULs fall
outside the declared length. -/
theorem claim_C3_amended_startup_layout (u d : List Nat) :
    (pgvictoria_create_startup_message u d false).length = 51 + u.length + d.length ∧
    (pgvictoria_create_startup_message u d false).data
      = be32 ((51 + u.length + d.length : Nat) : Int) ++ be32 196608 ++
          cstr (ascii "user") ++ cstr u ++ cstr (ascii "database") ++ cstr d ++
          cstr (ascii "application_name") ++ ascii "pgvictoria" := by
  have hS : 4 + 4 + 4 + 1 + u.length + 1 + 8 + 1 + d.length + 1 + 17 + 9 + 1
      = 51 + u.length + d.length := by omega
  constructor
  · simp only [pgvictoria_create_startup_message, Bool.false_eq_true, if_false]
    omega
  · simp only [pgvictoria_create_startup_message, Bool.false_eq_true, if_false, hS]
    have e1 : writeAt (List.replicate (51 + u.length + d.length) 0) 0
        (be32 ((51 + u.length + d.length : Nat) : Int))
        = be32 ((51 + u.length + d.length : Nat) : Int) ++
            List.replicate (47 + u.length + d.length) 0 := by
      have := writeAt_fill2 [] (be32 ((51 + u.length + d.length : Nat) : Int))
        (51 + u.length + d.length) 0 (47 + u.length + d.length) rfl
        (by rw [be32_length] <;> omega) (by rw [be32_length] <;> omega)
      simpa using this
    have e2 : writeAt (be32 ((51 + u.length + d.length : Nat) : Int) ++
          List.replicate (47 + u.length + d.length) 0) 4 (be32 196608)
        = (be32 ((51 + u.length + d.length : Nat) : Int) ++ be32 196608) ++
            List.replicate (43 + u.length + d.length) 0 :=
      writeAt_fill2 _ _ _ _ _ (be32_length _) (by rw [be32_length] <;> omega)
        (by rw [be32_length] <;> omega)
    have e3 : writeAt ((be32 ((51 + u.length + d.length : Nat) : Int) ++ be32 196608) ++
          List.replicate (43 + u.length + d.length) 0) 8 (cstr (ascii "user"))
        = ((be32 ((51 + u.length + d.length : Nat) : Int) ++ be32 196608) ++
            cstr (ascii "user")) ++ List.replicate (38 + u.length + d.length) 0 :=
      writeAt_fill2 _ _ _ _ _ (by simp [be32_length]) (by simp [cstr_length] <;> omega)
        (by simp [cstr_length] <;> omega)
    have e4 : writeAt (((be32 ((51 + u.length + d.length : Nat) : Int) ++ be32 196608) ++
          cstr (ascii "user")) ++ List.replicate (38 + u.length + d.length) 0) 13 (cstr u)
        = ((((be32 ((51 + u.length + d.length : Nat) : Int) ++ be32 196608) ++
            cstr (ascii "user")) ++ cstr u)) ++ List.replicate (37 + d.length) 0 :=
      writeAt_fill2 _ _ _ _ _ (by simp [be32_length, cstr_length])
        (by simp [cstr_length] <;> omega) (by simp [cstr_length] <;> omega)
    have e5 : writeAt ((((be32 ((51 + u.length + d.length : Nat) : Int) ++ be32 196608) ++
          cstr (ascii "user")) ++ cstr u) ++ List.replicate (37 + d.length) 0)
          (13 + u.length + 1) (cstr (ascii "database"))
        = (((((be32 ((51 + u.length + d.length : Nat) : Int) ++ be32 196608) ++
            cstr (ascii "user")) ++ cstr u) ++ cstr (ascii "database"))) ++
            List.replicate (28 + d.length) 0 :=
      writeAt_fill2 _ _ _ _ _ (by simp [be32_length, cstr_length] <;> omega)
        (by simp [cstr_length] <;> omega) (by simp [cstr_length] <;> omega)
    have e6 : writeAt (((((be32 ((51 + u.length + d.length : Nat) : Int) ++ be32 196608) ++
          cstr (ascii "user")) ++ cstr u) ++ cstr (ascii "database")) ++
          List.replicate (28 + d.length) 0) (13 + u.length + 1 + 9) (cstr d)
        = ((((((be32 ((51 + u.length + d.length : Nat) : Int) ++ be32 196608) ++
            cstr (ascii "user")) ++ cstr u) ++ cstr (ascii "database")) ++ cstr d)) ++
            List.replicate 27 0 :=
      writeAt_fill2 _ _ _ _ _ (by simp [be32_length, cstr_length] <;> omega)
        (by simp [cstr_length] <;> omega) (by simp [cstr_length] <;> omega)
    have e7 : writeAt ((((((be32 ((51 + u.length + d.length : Nat) : Int) ++ be32 196608) ++
          cstr (ascii "user")) ++ cstr u) ++ cstr (ascii "database")) ++ cstr d) ++
          List.replicate 27 0) (13 + u.length + 1 + 9 + d.length + 1)
          (cstr (ascii "application_name"))
        = (((((((be32 ((51 + u.length + d.length : Nat) : Int) ++ be32 196608) ++
            cstr (ascii "user")) ++ cstr u) ++ cstr (ascii "database")) ++ cstr d) ++
            cstr (ascii "application_name"))) ++ List.replicate 10 0 :=
      writeAt_fill2 _ _ _ _ _ (by simp [be32_length, cstr_length] <;> omega)
        (by simp [cstr_length] <;> omega) (by simp [cstr_length] <;> omega)
    have e8 : writeAt (((((((be32 ((51 + u.length + d.length : Nat) : Int) ++ be32 196608) ++
          cstr (ascii "user")) ++ cstr u) ++ cstr (ascii "database")) ++ cstr d) ++
          cstr (ascii "application_name")) ++ List.replicate 10 0)
          (13 + u.length + 1 + 9 + d.length + 1 + 17) (cstr (ascii "pgvictoria"))
        = ((((((be32 ((51 + u.length + d.length : Nat) : Int) ++ be32 196608) ++
            cstr (ascii "user")) ++ cstr u) ++ cstr (ascii "database")) ++ cstr d) ++
            cstr (ascii "application_name")) ++ ascii "pgvictoria" := by
      have h10 : (ascii "pgvictoria").length = 10 := by decide
      have := writeAt_clip ((((((be32 ((51 + u.length + d.length : Nat) : Int) ++
          be32 196608) ++ cstr (ascii "user")) ++ cstr u) ++ cstr (ascii "database")) ++
          cstr d) ++ cstr (ascii "application_name")) (ascii "pgvictoria")
          (13 + u.length + 1 + 9 + d.length + 1 + 17)
          (by simp [be32_length, cstr_length] <;> omega)
      rw [h10] at this
      exact this
    rw [e1, e2, e3, e4, e5, e6, e7, e8, List.append_assoc, List.append_assoc,
      List.append_assoc, List.append_assoc, List.append_assoc, List.append_assoc]


/-! ### Frame-stream lemmas -/

lemma frameBytes_length (f : Frame) : (frameBytes f).length = 5 + f.payload.length := by
  simp [frameBytes, be32_length]
  omega

lemma length_le_encodeFrames (fs : List Frame) : fs.length ≤ (encodeFrames fs).length := by
  induction fs with
  | nil => simp [encodeFrames]
  | cons f fs ih =>
    have := frameBytes_length f
    simp only [encodeFrames, List.length_cons, List.length_append]
    omega

lemma encode_cons_decomp (pre : List Nat) (f : Frame) (fs : List Frame) :
    pre ++ encodeFrames (f :: fs)
      = (pre ++ [f.tag]) ++
          (be32 ((4 : Int) + f.payload.length) ++ (f.payload ++ encodeFrames fs)) := by
  simp [encodeFrames, frameBytes, List.append_assoc]

lemma hasMessageAux_spec (type : Nat) :
    ∀ (fs : List Frame) (fuel : Nat) (pre data' : List Nat),
      fs.length ≤ fuel →
      (∀ f ∈ fs, f.payload.length + 4 < 2147483648) →
      pre.length + (encodeFrames fs).length < 18446744073709551616 →
      (∀ i, i < pre.length + (encodeFrames fs).length →
        data'.getD i 0 = (pre ++ encodeFrames fs).getD i 0) →
      hasMessageAux type data' (pre.length + (encodeFrames fs).length) fuel pre.length
        = fs.any (fun f => type == f.tag) := by
  intro fs
  induction fs with
  | nil =>
    intro fuel pre data' _ _ _ _
    cases fuel with
    | zero => simp [hasMessageAux, encodeFrames]
    | succ fu => simp [hasMessageAux, encodeFrames]
  | cons f fs ih =>
    intro fuel pre data' hfuel hwf hn hagree
    obtain ⟨fu, rfl⟩ : ∃ fu, fuel = fu + 1 := ⟨fuel - 1, by simp at hfuel; omega⟩
    have hfb := frameBytes_length f
    have hlt : pre.length < pre.length + (encodeFrames (f :: fs)).length := by
      simp only [encodeFrames, List.length_append]
      omega
    have htag : readByte data' pre.length = f.tag := by
      rw [readByte, hagree pre.length hlt,
        List.getD_append_right _ _ _ _ (le_refl _), Nat.sub_self]
      simp [encodeFrames, frameBytes]
    simp only [hasMessageAux]
    rw [if_pos hlt, htag]
    by_cases hty : type == f.tag
    · simp [hty, List.any_cons]
    · have hwfhead := hwf f (List.mem_cons_self f fs)
      have hlen32 : read_int32 data' (pre.length + 1) = (4 : Int) + f.payload.length := by
        rw [read_int32_congr data' (pre.length + 1) (be32 ((4 : Int) + f.payload.length))
          ?agree]
        · exact read_int32_be32 _ (by push_cast; omega) (by push_cast; omega)
        case agree =>
          intro j hj
          have hidx : pre.length + 1 + j < pre.length + (encodeFrames (f :: fs)).length := by
            simp only [encodeFrames, List.length_append]
            omega
          rw [hagree _ hidx, encode_cons_decomp]
          have hsh : pre.length + 1 + j = (pre ++ [f.tag]).length + j := by simp
          rw [hsh, getD_append_boundary _ _ _ j (by rw [be32_length]; omega)]
      have hstep :
          Int.toNat (((pre.length : Int) + 1 + read_int32 data' (pre.length + 1)) %
              18446744073709551616)
            = (pre ++ frameBytes f).length := by
        rw [hlen32]
        have h5 : (pre.length : Int) + 1 + ((4 : Int) + f.payload.length)
            = ((pre.length + 5 + f.payload.length : Nat) : Int) := by
          push_cast
          ring
        rw [h5, Int.emod_eq_of_lt (by positivity) ?bound]
        · simp only [Int.toNat_natCast, List.length_append]
          omega
        case bound =>
          have hle : 5 + f.payload.length ≤ (encodeFrames (f :: fs)).length := by
            simp only [encodeFrames, List.length_append]
            omega
          push_cast
          omega
      rw [hstep]
      have hsz : pre.length + (encodeFrames (f :: fs)).length
          = (pre ++ frameBytes f).length + (encodeFrames fs).length := by
        simp only [encodeFrames, List.length_append]
        omega
      rw [hsz]
      rw [ih fu (pre ++ frameBytes f) data'
        (by simp at hfuel; omega)
        (fun g hg => hwf g (List.mem_cons_of_mem f hg))
        (by rw [← hsz]; exact hn)
        ?agree2]
      · simp [List.any_cons, hty]
      case agree2 =>
        intro i hi
        rw [← hsz] at hi
        rw [hagree i hi]
        have : (pre ++ frameBytes f) ++ encodeFrames fs = pre ++ encodeFrames (f :: fs) := by
          simp [encodeFrames, List.append_assoc]
        rw [this]

/-- Claim C5: for every buffer whose first data_size bytes agree with a
concatenation of well-formed tagged frames with correct big-endian i32 length
fields, pgvictoria_has_message returns true exactly when one of the frames
begins with the sought tag byte.  Quantifying over every buffer that agrees on
the first data_size bytes expresses that the scan never reads a byte at an
offset at or beyond data_size: bytes there are arbitrary and cannot influence
the result. -/
theorem claim_C5_has_message_scan (type : Nat) (fs : List Frame) (data' : List Nat)
    (hwf : ∀ f ∈ fs, f.payload.length + 4 < 2147483648)
    (hn : (encodeFrames fs).length < 18446744073709551616)
    (hagree : ∀ i, i < (encodeFrames fs).length →
      data'.getD i 0 = (encodeFrames fs).getD i 0) :
    (pgvictoria_has_message type data' (encodeFrames fs).length = true
      ↔ ∃ f ∈ fs, f.tag = type) := by
  have h := hasMessageAux_spec type fs ((encodeFrames fs).length + 1) [] data'
    (by have := length_le_encodeFrames fs; omega)
    hwf (by simpa using hn) (by simpa using hagree)
  simp only [List.length_nil, Nat.zero_add, List.nil_append] at h
  rw [pgvictoria_has_message, h, List.any_eq_true]
  constructor
  · rintro ⟨g, hg, he⟩
    simp only [beq_iff_eq] at he
    exact ⟨g, hg, he.symm⟩
  · rintro ⟨g, hg, he⟩
    exact ⟨g, hg, by simp [he]⟩

/-- Witness for claim C5 at a concrete stream: an R frame followed by a Z
frame; the scan finds the Z tag. -/
theorem claim_C5_witness :
    pgvictoria_has_message 90 (encodeFrames c5Frames) (encodeFrames c5Frames).length = true
      ↔ ∃ f ∈ c5Frames, f.tag = 90 :=
  claim_C5_has_message_scan 90 c5Frames (encodeFrames c5Frames)
    (by decide) (by decide) (fun i _ => rfl)


/-! ### Frame-extraction lemmas -/

lemma head_tag_boundary (pre rest : List Nat) (f : Frame) :
    readByte (pre ++ (frameBytes f ++ rest)) pre.length = f.tag := by
  rw [readByte, List.getD_append_right _ _ _ _ (le_refl _), Nat.sub_self]
  simp [frameBytes]

lemma read_len_boundary (pre rest : List Nat) (f : Frame)
    (h : f.payload.length + 4 < 2147483648) :
    read_int32 (pre ++ (frameBytes f ++ rest)) (pre.length + 1)
      = (4 : Int) + f.payload.length := by
  have hdec : pre ++ (frameBytes f ++ rest)
      = (pre ++ [f.tag]) ++
          (be32 ((4 : Int) + f.payload.length) ++ (f.payload ++ rest)) := by
    simp [frameBytes, List.append_assoc]
  have hsh : pre.length + 1 = (pre ++ [f.tag]).length := by simp
  rw [hdec, hsh]
  exact read_int32_boundary _ _ _ (by push_cast; omega) (by push_cast; omega)

lemma extract_message_offset_boundary (pre rest : List Nat) (f : Frame)
    (h : f.payload.length + 4 < 2147483648) :
    pgvictoria_extract_message_offset pre.length (pre ++ (frameBytes f ++ rest))
      = ((pre ++ frameBytes f).length, mkMessage f) := by
  simp only [pgvictoria_extract_message_offset]
  rw [head_tag_boundary, read_len_boundary pre rest f h, List.drop_left]
  have ht : 1 + ((4 : Int) + (f.payload.length : Int)).toNat = (frameBytes f).length := by
    rw [frameBytes_length]
    omega
  rw [ht, List.take_left]
  have hn1 : pre.length + 1 + ((4 : Int) + (f.payload.length : Int)).toNat
      = (pre ++ frameBytes f).length := by
    rw [List.length_append, frameBytes_length]
    omega
  rw [hn1]
  rfl

lemma extractFromDataAux_spec (type : Nat) :
    ∀ (fs : List Frame) (fuel : Nat) (pre : List Nat),
      fs.length ≤ fuel →
      (∀ f ∈ fs, f.payload.length + 4 < 2147483648) →
      extractFromDataAux type (pre ++ encodeFrames fs)
          (pre.length + (encodeFrames fs).length) fuel pre.length
        = (fs.find? (fun f => f.tag == type)).map mkMessage := by
  intro fs
  induction fs with
  | nil =>
    intro fuel pre _ _
    cases fuel with
    | zero => simp [extractFromDataAux, encodeFrames]
    | succ fu => simp [extractFromDataAux, encodeFrames]
  | cons f fs ih =>
    intro fuel pre hfuel hwf
    obtain ⟨fu, rfl⟩ : ∃ fu, fuel = fu + 1 := ⟨fuel - 1, by simp at hfuel; omega⟩
    have hfb := frameBytes_length f
    have hwfhead := hwf f (List.mem_cons_self f fs)
    have hlt : pre.length < pre.length + (encodeFrames (f :: fs)).length := by
      simp only [encodeFrames, List.length_append]
      omega
    simp only [extractFromDataAux]
    rw [if_pos hlt]
    have hdata : pre ++ encodeFrames (f :: fs) = pre ++ (frameBytes f ++ encodeFrames fs) :=
      rfl
    rw [hdata, head_tag_boundary, read_len_boundary pre _ f hwfhead, List.drop_left]
    have ht : 1 + ((4 : Int) + (f.payload.length : Int)).toNat = (frameBytes f).length := by
      rw [frameBytes_length]
      omega
    rw [ht, List.take_left]
    by_cases hty : f.tag == type
    · have hfind : List.find? (fun g : Frame => g.tag == type) (f :: fs) = some f :=
        List.find?_cons_of_pos _ hty
      rw [if_pos hty, hfind]
      simp [mkMessage]
    · have hfind : List.find? (fun g : Frame => g.tag == type) (f :: fs)
          = List.find? (fun g : Frame => g.tag == type) fs :=
        List.find?_cons_of_neg _ hty
      rw [if_neg hty, hfind]
      have hn1 : pre.length + 1 + ((4 : Int) + (f.payload.length : Int)).toNat
          = (pre ++ frameBytes f).length := by
        rw [List.length_append, frameBytes_length]
        omega
      have hsz : pre.length + (encodeFrames (f :: fs)).length
          = (pre ++ frameBytes f).length + (encodeFrames fs).length := by
        simp only [encodeFrames, List.length_append]
        omega
      rw [hn1, hsz, ← List.append_assoc]
      exact ih fu (pre ++ frameBytes f) (by simp at hfuel; omega)
        (fun g hg => hwf g (List.mem_cons_of_mem f hg))

lemma has_message_encode (type : Nat) (fs : List Frame)
    (hwf : ∀ f ∈ fs, f.payload.length + 4 < 2147483648)
    (hn : (encodeFrames fs).length < 18446744073709551616) :
    pgvictoria_has_message type (encodeFrames fs) (encodeFrames fs).length
      = fs.any (fun f => type == f.tag) := by
  have h := hasMessageAux_spec type fs ((encodeFrames fs).length + 1) [] (encodeFrames fs)
    (by have := length_le_encodeFrames fs; omega)
    hwf (by simpa using hn) (by simp)
  simpa [pgvictoria_has_message] using h

lemma extract_from_data_encode (type : Nat) (fs : List Frame)
    (hwf : ∀ f ∈ fs, f.payload.length + 4 < 2147483648) :
    pgvictoria_extract_message_from_data type (encodeFrames fs) (encodeFrames fs).length
      = (fs.find? (fun f => f.tag == type)).map mkMessage := by
  have h := extractFromDataAux_spec type fs ((encodeFrames fs).length + 1) []
    (by have := length_le_encodeFrames fs; omega) hwf
  simpa [pgvictoria_extract_message_from_data] using h

lemma collectDAux_spec (cols : Int) :
    ∀ (fs : List Frame) (fuel : Nat) (pre : List Nat),
      fs.length ≤ fuel →
      (∀ f ∈ fs, f.payload.length + 4 < 2147483648) →
      collectDAux cols (pre ++ encodeFrames fs)
          (pre.length + (encodeFrames fs).length) fuel pre.length
        = (fs.filter (fun f => f.tag == 68)).map
            (fun f => create_D_tuple cols (mkMessage f)) := by
  intro fs
  induction fs with
  | nil =>
    intro fuel pre _ _
    cases fuel with
    | zero => simp [collectDAux, encodeFrames]
    | succ fu => simp [collectDAux, encodeFrames]
  | cons f fs ih =>
    intro fuel pre hfuel hwf
    obtain ⟨fu, rfl⟩ : ∃ fu, fuel = fu + 1 := ⟨fuel - 1, by simp at hfuel; omega⟩
    have hfb := frameBytes_length f
    have hlt : pre.length < pre.length + (encodeFrames (f :: fs)).length := by
      simp only [encodeFrames, List.length_append]
      omega
    simp only [collectDAux]
    rw [if_pos hlt]
    have hdata : pre ++ encodeFrames (f :: fs) = pre ++ (frameBytes f ++ encodeFrames fs) :=
      rfl
    rw [hdata, extract_message_offset_boundary pre (encodeFrames fs) f
      (hwf f (List.mem_cons_self f fs))]
    have hsz : pre.length + (encodeFrames (f :: fs)).length
        = (pre ++ frameBytes f).length + (encodeFrames fs).length := by
      simp only [encodeFrames, List.length_append]
      omega
    rw [hsz, ← List.append_assoc]
    rw [ih fu (pre ++ frameBytes f) (by simp at hfuel; omega)
      (fun g hg => hwf g (List.mem_cons_of_mem f hg))]
    rw [List.filter_cons]
    by_cases hd : f.tag == 68
    · simp [mkMessage, hd]
    · simp [mkMessage, hd]


/-! ### RowDescription, DataRow and CommandComplete decoding lemmas -/

lemma takeWhile_ne_zero (name rest : List Nat) (h : ∀ x ∈ name, x ≠ 0) :
    (name ++ 0 :: rest).takeWhile (fun c => c ≠ 0) = name := by
  induction name with
  | nil => simp
  | cons a name ih =>
    have ha := h a (List.mem_cons_self a name)
    rw [List.cons_append, List.takeWhile_cons_of_pos (by simp [ha]),
      ih (fun x hx => h x (List.mem_cons_of_mem a hx))]

lemma readString_boundary (pre rest : List Nat) (name : List Nat)
    (h : ∀ x ∈ name, x ≠ 0) :
    readString (pre ++ (name ++ 0 :: rest)) pre.length = name := by
  simp only [readString]
  rw [List.drop_left]
  exact takeWhile_ne_zero name rest h

/-- Well-formed RowDescription columns: NUL-free names and 18 metadata bytes. -/
def WfColumns (cds : List ColumnDesc) : Prop :=
  ∀ c ∈ cds, (∀ x ∈ c.name, x ≠ 0) ∧ c.meta.length = 18

instance (cds : List ColumnDesc) : Decidable (WfColumns cds) := by
  unfold WfColumns
  infer_instance

lemma get_name_walk (cds : List ColumnDesc) :
    ∀ (i : Nat) (c : ColumnDesc) (pre : List Nat),
      cds.get? i = some c →
      WfColumns cds →
      readString (pre ++ colsBytes cds) (skipColumns (pre ++ colsBytes cds) pre.length i)
        = c.name := by
  induction cds with
  | nil =>
    intro i c pre hc _
    simp at hc
  | cons c0 cs ih =>
    intro i c pre hc hwf
    have hd : pre ++ colsBytes (c0 :: cs)
        = pre ++ (c0.name ++ 0 :: (c0.meta ++ colsBytes cs)) := by
      simp [colsBytes, colBytes, List.append_assoc]
    cases i with
    | zero =>
      have hc0 : c = c0 := by
        rw [List.get?_cons_zero] at hc
        exact (Option.some.inj hc).symm
      subst hc0
      simp only [skipColumns]
      rw [hd]
      exact readString_boundary _ _ _ (hwf c (List.mem_cons_self c cs)).1
    | succ i =>
      simp only [skipColumns]
      have hr : readString (pre ++ colsBytes (c0 :: cs)) pre.length = c0.name := by
        rw [hd]
        exact readString_boundary _ _ _ (hwf c0 (List.mem_cons_self c0 cs)).1
      rw [hr]
      have hoff : pre.length + c0.name.length + 1 + 4 + 2 + 4 + 2 + 4 + 2
          = (pre ++ colBytes c0).length := by
        have hm := (hwf c0 (List.mem_cons_self c0 cs)).2
        simp [colBytes, List.length_append]
        omega
      have hd2 : pre ++ colsBytes (c0 :: cs) = (pre ++ colBytes c0) ++ colsBytes cs := by
        simp [colsBytes, List.append_assoc]
      rw [hoff, hd2]
      exact ih i c (pre ++ colBytes c0) (by simpa using hc)
        (fun c' h' => hwf c' (List.mem_cons_of_mem c0 h'))

lemma rowdesc_head_decomp (cds : List ColumnDesc) :
    frameBytes { tag := 84, payload := rowDescPayload cds }
      = (84 :: be32 ((4 : Int) + (rowDescPayload cds).length)) ++
          (be16 (cds.length : Int) ++ colsBytes cds) := by
  simp [frameBytes, rowDescPayload, List.append_assoc]

lemma read_int16_rowdesc (cds : List ColumnDesc) (hlen : cds.length < 32768) :
    read_int16 (frameBytes { tag := 84, payload := rowDescPayload cds }) 5
      = (cds.length : Int) := by
  rw [rowdesc_head_decomp]
  have h5 : (5 : Nat)
      = ((84 : Nat) :: be32 ((4 : Int) + (rowDescPayload cds).length)).length := by
    simp [be32_length]
  rw [h5]
  exact read_int16_boundary _ _ _ (by positivity) (by push_cast; omega)

lemma get_number_of_columns_T (cds : List ColumnDesc) (hlen : cds.length < 32768) :
    get_number_of_columns (mkMessage { tag := 84, payload := rowDescPayload cds })
      = (cds.length : Int) := by
  have h16 := read_int16_rowdesc cds hlen
  simp [get_number_of_columns, mkMessage, h16]

lemma get_column_name_T (cds : List ColumnDesc) (i : Nat) (c : ColumnDesc)
    (hc : cds.get? i = some c) (hwf : WfColumns cds) (hlen : cds.length < 32768) :
    get_column_name (mkMessage { tag := 84, payload := rowDescPayload cds }) i
      = some c.name := by
  have hilt : i < cds.length := by
    by_contra hcon
    push_neg at hcon
    rw [List.get?_eq_none.mpr hcon] at hc
    cases hc
  have h16 := read_int16_rowdesc cds hlen
  have hmk : mkMessage { tag := 84, payload := rowDescPayload cds }
      = { kind := 84,
          length := (frameBytes { tag := 84, payload := rowDescPayload cds }).length,
          data := frameBytes { tag := 84, payload := rowDescPayload cds } } := rfl
  simp only [get_column_name, hmk, beq_self_eq_true, if_true]
  rw [h16]
  rw [if_pos (by exact_mod_cast hilt : ((i : Int) < (cds.length : Int)))]
  have hd : frameBytes { tag := 84, payload := rowDescPayload cds }
      = ((84 :: be32 ((4 : Int) + (rowDescPayload cds).length)) ++
          be16 (cds.length : Int)) ++ colsBytes cds := by
    rw [rowdesc_head_decomp, List.append_assoc]
  have h7 : (7 : Nat)
      = (((84 : Nat) :: be32 ((4 : Int) + (rowDescPayload cds).length)) ++
          be16 (cds.length : Int)).length := by
    simp [be32_length, be16_length]
  rw [hd, h7]
  rw [get_name_walk cds i c _ hc hwf]

lemma collectColumnNames_T (cds : List ColumnDesc) (hwf : WfColumns cds)
    (hlen : cds.length < 32768) :
    ∀ k, k ≤ cds.length →
      collectColumnNames (mkMessage { tag := 84, payload := rowDescPayload cds }) k
        = some ((cds.take k).map (fun c => c.name)) := by
  intro k
  induction k with
  | zero =>
    intro _
    simp [collectColumnNames]
  | succ k ih =>
    intro hk
    have hklt : k < cds.length := by omega
    obtain ⟨c, hc⟩ : ∃ c, cds.get? k = some c := by
      cases hg : cds.get? k with
      | none =>
        rw [List.get?_eq_none] at hg
        omega
      | some c => exact ⟨c, rfl⟩
    simp only [collectColumnNames]
    rw [ih (by omega), get_column_name_T cds k c hc hwf hlen]
    have hc2 : cds[k]? = some c := by
      rw [← List.get?_eq_getElem?]
      exact hc
    rw [List.take_succ, hc2]
    simp

lemma create_C_tuple_spec (ct : List Nat) (hne : ct ≠ [])
    (hlen : ct.length + 5 < 2147483648) :
    create_C_tuple (mkMessage { tag := 67, payload := ct ++ [0] })
      = { data := [some ct] } := by
  have hmk : mkMessage { tag := 67, payload := ct ++ [0] }
      = { kind := 67,
          length := (frameBytes { tag := 67, payload := ct ++ [0] }).length,
          data := frameBytes { tag := 67, payload := ct ++ [0] } } := rfl
  simp only [create_C_tuple, hmk]
  have h32 : read_int32 (frameBytes { tag := 67, payload := ct ++ [0] }) 1
      = (4 : Int) + ((ct ++ [0]).length : Int) := by
    have hd : frameBytes { tag := 67, payload := ct ++ [0] }
        = [67] ++ (be32 ((4 : Int) + ((ct ++ [0]).length : Int)) ++ (ct ++ [0])) := by
      simp [frameBytes]
    rw [hd, show (1 : Nat) = ([67] : List Nat).length from rfl]
    exact read_int32_boundary _ _ _ (by push_cast; omega) (by simp [List.length_append]; omega)
  rw [h32]
  have hsub : (4 : Int) + ((ct ++ [0]).length : Int) - 5 = (ct.length : Int) := by
    simp [List.length_append]
    omega
  rw [hsub]
  have hpos : (0 : Int) < (ct.length : Int) := by
    have hz : ct.length ≠ 0 := fun h => hne (List.length_eq_zero.mp h)
    omega
  rw [if_pos hpos]
  have hdrop : (frameBytes { tag := 67, payload := ct ++ [0] }).drop 5 = ct ++ [0] := by
    have hd : frameBytes { tag := 67, payload := ct ++ [0] }
        = ([67] ++ be32 ((4 : Int) + ((ct ++ [0]).length : Int))) ++ (ct ++ [0]) := by
      simp [frameBytes, List.append_assoc]
    rw [hd]
    exact List.drop_left' (by simp [be32_length])
  rw [hdrop]
  have htn : ((ct.length : Int)).toNat = ct.length := by omega
  rw [htn, List.take_left]

lemma createDTupleAux_spec :
    ∀ (cells : List (Option (List Nat))) (pre : List Nat),
      (∀ bs, some bs ∈ cells → bs.length < 2147483648) →
      createDTupleAux (pre ++ cellsBytes cells) pre.length cells.length
        = cells.map (fun c => match c with
            | none => none
            | some bs => if 0 < bs.length then some bs else none) := by
  intro cells
  induction cells with
  | nil =>
    intro pre _
    simp [createDTupleAux]
  | cons c cs ih =>
    intro pre hwf
    cases c with
    | none =>
      simp only [List.length_cons, createDTupleAux, List.map_cons]
      have hdec : pre ++ cellsBytes (none :: cs) = pre ++ (be32 (-1) ++ cellsBytes cs) := rfl
      have hread : read_int32 (pre ++ cellsBytes (none :: cs)) pre.length = -1 := by
        rw [hdec]
        exact read_int32_boundary _ _ _ (by norm_num) (by norm_num)
      rw [hread, if_neg (by norm_num : ¬ (0 : Int) < -1)]
      have hoff : pre.length + 4 = (pre ++ be32 (-1)).length := by
        simp [be32_length]
      rw [hdec, ← List.append_assoc, hoff]
      rw [ih (pre ++ be32 (-1)) (fun bs hbs => hwf bs (List.mem_cons_of_mem _ hbs))]
    | some bs =>
      simp only [List.length_cons, createDTupleAux, List.map_cons]
      have hblt : bs.length < 2147483648 := hwf bs (List.mem_cons_self _ _)
      have hdec : pre ++ cellsBytes (some bs :: cs)
          = pre ++ (be32 (bs.length : Int) ++ (bs ++ cellsBytes cs)) := by
        simp [cellsBytes, cellBytes, List.append_assoc]
      have hread : read_int32 (pre ++ cellsBytes (some bs :: cs)) pre.length
          = (bs.length : Int) := by
        rw [hdec]
        exact read_int32_boundary _ _ _ (by push_cast; omega) (by push_cast; omega)
      rw [hread]
      by_cases hb : 0 < bs.length
      · rw [if_pos (by exact_mod_cast hb)]
        have htn : ((bs.length : Int)).toNat = bs.length := by omega
        have hcell : ((pre ++ cellsBytes (some bs :: cs)).drop (pre.length + 4)).take
            ((bs.length : Int)).toNat = bs := by
          rw [htn, hdec]
          have h4 : pre.length + 4 = (pre ++ be32 (bs.length : Int)).length := by
            simp [be32_length]
          rw [← List.append_assoc, h4, List.drop_left]
          exact List.take_left bs (cellsBytes cs)
        rw [hcell, if_pos hb]
        have hoff : pre.length + 4 + ((bs.length : Int)).toNat
            = ((pre ++ be32 (bs.length : Int)) ++ bs).length := by
          simp [be32_length]
          omega
        have hdec2 : pre ++ cellsBytes (some bs :: cs)
            = ((pre ++ be32 (bs.length : Int)) ++ bs) ++ cellsBytes cs := by
          rw [hdec]
          simp [List.append_assoc]
        rw [hoff, hdec2]
        rw [ih ((pre ++ be32 (bs.length : Int)) ++ bs)
          (fun x hx => hwf x (List.mem_cons_of_mem _ hx))]
      · rw [if_neg (by exact_mod_cast hb), if_neg hb]
        have hbz : bs = [] := List.length_eq_zero.mp (by omega)
        subst hbz
        have hoff : pre.length + 4 = (pre ++ be32 ((List.length ([] : List Nat) : Nat) : Int)).length := by
          simp [be32_length]
        rw [hdec, ← List.append_assoc]
        simp only [List.nil_append, List.append_nil]
        rw [hoff]
        rw [ih (pre ++ be32 ((List.length ([] : List Nat) : Nat) : Int))
          (fun x hx => hwf x (List.mem_cons_of_mem _ hx))]

/-- Claim C2, amended: in every tuple built from a well-formed DataRow frame, a
column whose i32 length field is -1 AND a column whose length field is 0 both
yield a null cell (create_D_tuple copies only when the length is strictly
positive), while columns with positive length are copied verbatim; a NULL cell
is therefore NOT distinguishable from an empty byte string in the resulting
query_response. -/
theorem claim_C2_amended_null_cells (cells : List (Option (List Nat)))
    (hwf : ∀ bs, some bs ∈ cells → bs.length < 2147483648) :
    (create_D_tuple (cells.length : Int)
        (mkMessage { tag := 68, payload := dataRowPayload cells })).data
      = cells.map (fun c => match c with
          | none => none
          | some bs => if 0 < bs.length then some bs else none) := by
  have hmk : mkMessage { tag := 68, payload := dataRowPayload cells }
      = { kind := 68,
          length := (frameBytes { tag := 68, payload := dataRowPayload cells }).length,
          data := frameBytes { tag := 68, payload := dataRowPayload cells } } := rfl
  simp only [create_D_tuple, hmk]
  have htn : ((cells.length : Int)).toNat = cells.length := by omega
  rw [htn]
  have hd : frameBytes { tag := 68, payload := dataRowPayload cells }
      = ((68 : Nat) :: (be32 ((4 : Int) + (dataRowPayload cells).length) ++
          be16 (cells.length : Int))) ++ cellsBytes cells := by
    simp [frameBytes, dataRowPayload, List.append_assoc]
  have h7 : (7 : Nat)
      = (((68 : Nat) :: (be32 ((4 : Int) + (dataRowPayload cells).length) ++
          be16 (cells.length : Int)))).length := by
    simp [be32_length, be16_length]
  rw [hd, h7]
  exact createDTupleAux_spec cells _ hwf

/-- Witness for the amended claim C2 at a concrete DataRow: the cells are a
one-byte value, a NULL (length -1) and an empty value (length 0); the decoded
tuple keeps the value and maps both of the last two cells to null. -/
theorem claim_C2_witness :
    (create_D_tuple ((c2Cells.length : Nat) : Int)
        (mkMessage { tag := 68, payload := dataRowPayload c2Cells })).data
      = [some [49], none, none] :=
  (claim_C2_amended_null_cells c2Cells (by
    intro bs hbs
    simp [c2Cells] at hbs
    rcases hbs with h | h <;> subst h <;> decide)).trans (by decide)


/-- Claim C1: for every accumulated reply stream that is a concatenation of
well-formed frames terminated by a Z frame, the classification phase of
pgvictoria_query_execute proceeds by tag.  First conjunct: when no E frame is
present and a T frame is present, the result takes number_of_columns and the
column names from the (first) T frame, contains one tuple per D frame in wire
order (appended at the tail), and has is_command_complete = false.  Second
conjunct: when neither E nor T is present but a C frame is, the result is a
single-column single-row response holding the command tag with
is_command_complete = true. -/
theorem claim_C1_query_execute_classification (fs : List Frame)
    (hwf : ∀ f ∈ fs, f.payload.length + 4 < 2147483648)
    (hn : (encodeFrames fs).length < 18446744073709551616)
    (hz : (fs.getLast?).map Frame.tag = some 90) :
    ((∀ f ∈ fs, f.tag ≠ 69) →
      ∀ cds : List ColumnDesc,
        fs.find? (fun f => f.tag == 84)
            = some { tag := 84, payload := rowDescPayload cds } →
        WfColumns cds → cds.length < 32768 → cds.length ≤ 8 →
        pgvictoria_query_execute_classify (encodeFrames fs)
          = some { number_of_columns := (cds.length : Int),
                   names := cds.map (fun c => c.name),
                   tuples := (fs.filter (fun f => f.tag == 68)).map
                       (fun f => create_D_tuple (cds.length : Int) (mkMessage f)),
                   is_command_complete := false })
    ∧ ((∀ f ∈ fs, f.tag ≠ 69) → (∀ f ∈ fs, f.tag ≠ 84) →
      ∀ ct : List Nat,
        fs.find? (fun f => f.tag == 67)
            = some { tag := 67, payload := ct ++ [0] } →
        ct ≠ [] →
        pgvictoria_query_execute_classify (encodeFrames fs)
          = some { number_of_columns := 1, names := [],
                   tuples := [{ data := [some ct] }],
                   is_command_complete := true }) := by
  constructor
  · intro hE cds hfind hwfc h15 h8
    have h69 : pgvictoria_has_message 69 (encodeFrames fs) (encodeFrames fs).length
        = false := by
      rw [has_message_encode 69 fs hwf hn, List.any_eq_false]
      intro g hg
      have hne69 := hE g hg
      simp only [beq_iff_eq]
      omega
    have hTmem := List.mem_of_find?_eq_some hfind
    have h84 : pgvictoria_has_message 84 (encodeFrames fs) (encodeFrames fs).length
        = true := by
      rw [has_message_encode 84 fs hwf hn, List.any_eq_true]
      exact ⟨_, hTmem, by simp⟩
    have hext := extract_from_data_encode 84 fs hwf
    rw [hfind] at hext
    have hcols := get_number_of_columns_T cds h15
    have hnames := collectColumnNames_T cds hwfc h15 cds.length (le_refl _)
    rw [List.take_length] at hnames
    have htuples := collectDAux_spec ((cds.length : Nat) : Int) fs
      ((encodeFrames fs).length + 1) []
      (by have := length_le_encodeFrames fs; omega) hwf
    simp only [List.length_nil, Nat.zero_add, List.nil_append] at htuples
    simp only [pgvictoria_query_execute_classify, h69, h84, hext, Option.map_some',
      Bool.false_eq_true, if_false, if_true, hcols, Int.toNat_natCast, hnames, htuples]
  · intro hE hnoT ct hfind hne
    have h69 : pgvictoria_has_message 69 (encodeFrames fs) (encodeFrames fs).length
        = false := by
      rw [has_message_encode 69 fs hwf hn, List.any_eq_false]
      intro g hg
      have hne69 := hE g hg
      simp only [beq_iff_eq]
      omega
    have h84 : pgvictoria_has_message 84 (encodeFrames fs) (encodeFrames fs).length
        = false := by
      rw [has_message_encode 84 fs hwf hn, List.any_eq_false]
      intro g hg
      have hne84 := hnoT g hg
      simp only [beq_iff_eq]
      omega
    have hCmem := List.mem_of_find?_eq_some hfind
    have h67 : pgvictoria_has_message 67 (encodeFrames fs) (encodeFrames fs).length
        = true := by
      rw [has_message_encode 67 fs hwf hn, List.any_eq_true]
      exact ⟨_, hCmem, by simp⟩
    have hext := extract_from_data_encode 67 fs hwf
    rw [hfind] at hext
    have hlen : ct.length + 5 < 2147483648 := by
      have := hwf _ hCmem
      simp only [List.length_append, List.length_cons, List.length_nil] at this
      omega
    have hc := create_C_tuple_spec ct hne hlen
    simp only [pgvictoria_query_execute_classify, h69, h84, h67, hext, Option.map_some',
      Bool.false_eq_true, if_false, if_true, hc]

/-- Witness for claim C1 at the S4 scenario: backend sequence T (one column
named ?column?), D (single value byte 1), C (SELECT 1), Z; the response has one
column named ?column?, exactly one tuple holding the byte 1, and
is_command_complete = false. -/
theorem claim_C1_witness :
    pgvictoria_query_execute_classify (encodeFrames s4Frames)
      = some { number_of_columns := 1, names := [ascii "?column?"],
               tuples := [{ data := [some [49]] }],
               is_command_complete := false } :=
  ((claim_C1_query_execute_classification s4Frames (by decide) (by decide)
      (by decide)).1
    (by decide) [{ name := ascii "?column?", meta := List.replicate 18 0 }]
    (by decide) (by decide) (by decide) (by decide)).trans (by decide)


/-! ### Users-file reader lemmas -/

lemma rlwacLoop_all_visible :
    ∀ (s : List Nat) (i : Nat) (last : Int) (acc : List Nat),
      (∀ x ∈ s, isspaceB x = false ∧ x ≠ 59 ∧ x ≠ 35) → s ≠ [] →
      rlwacLoop s i last acc = (acc ++ s, ((i + s.length - 1 : Nat) : Int)) := by
  intro s
  induction s with
  | nil =>
    intro i last acc _ hne
    exact absurd rfl hne
  | cons c rest ih =>
    intro i last acc hall hne
    have hc := hall c (List.mem_cons_self _ _)
    simp only [rlwacLoop]
    rw [if_neg (by simp [hc.2.1, hc.2.2]), if_neg (by simp [hc.1])]
    by_cases hrest : rest = []
    · subst hrest
      simp [rlwacLoop]
    · rw [ih (i + 1) (i : Int) (acc ++ [c])
        (fun x hx => hall x (List.mem_cons_of_mem _ hx)) hrest]
      have ha : (acc ++ [c]) ++ rest = acc ++ c :: rest := by
        simp [List.append_assoc]
      have hlen : i + 1 + rest.length - 1 = i + (c :: rest).length - 1 := by
        simp only [List.length_cons]
        omega
      rw [ha, hlen]

lemma rlwac_good (l : List Nat)
    (hall : ∀ x ∈ l, isspaceB x = false ∧ x ≠ 59 ∧ x ≠ 35) (hne : l ≠ []) :
    remove_leading_whitespace_and_comments l = l := by
  obtain ⟨c, rest, rfl⟩ : ∃ c rest, l = c :: rest := by
    cases l with
    | nil => exact absurd rfl hne
    | cons c rest => exact ⟨c, rest, rfl⟩
  have hc := hall c (List.mem_cons_self _ _)
  simp only [remove_leading_whitespace_and_comments]
  have h0 : (c :: rest).takeWhile isspaceB = [] :=
    List.takeWhile_cons_of_neg (by simp [hc.1])
  rw [h0]
  simp only [List.length_nil, List.drop_zero]
  rw [rlwacLoop_all_visible (c :: rest) 0 (-1) [] hall hne]
  simp only [List.nil_append]
  have hlast : ((0 + (c :: rest).length - 1 : Nat) : Int) = (rest.length : Int) := by
    simp
  rw [hlast]
  rw [if_neg (by simp)]
  have ht : ((rest.length : Int) + 1).toNat = rest.length + 1 := by omega
  rw [ht]
  rw [if_neg (by simp)]

lemma splitOnColon_no_colon (u : List Nat) (hu : ∀ x ∈ u, x ≠ 58) :
    splitOnColon u = [u] := by
  induction u with
  | nil => rfl
  | cons c rest ih =>
    simp only [splitOnColon]
    rw [if_neg (by simp [hu c (List.mem_cons_self _ _)])]
    rw [ih (fun x hx => hu x (List.mem_cons_of_mem _ hx))]

lemma splitOnColon_split (u b : List Nat) (hu : ∀ x ∈ u, x ≠ 58)
    (hb : ∀ x ∈ b, x ≠ 58) :
    splitOnColon (u ++ 58 :: b) = [u, b] := by
  induction u with
  | nil =>
    simp only [List.nil_append, splitOnColon]
    rw [if_pos (by simp)]
    rw [splitOnColon_no_colon b hb]
  | cons c rest ih =>
    simp only [List.cons_append, splitOnColon]
    rw [if_neg (by simp [hu c (List.mem_cons_self _ _)])]
    simp only [List.append_eq]
    rw [ih (fun x hx => hu x (List.mem_cons_of_mem _ hx))]

lemma readUsersLoop_good (dec : List Nat → Option (List Nat)) :
    ∀ (lines : List (List Nat)) (index : Nat)
      (stores : List (Nat × List Nat × List Nat)),
      (∀ l ∈ lines, lineGood dec l) →
      (readUsersLoop dec lines index stores).status
          = (if index + lines.length > 64 then 3 else 0) ∧
        (readUsersLoop dec lines index stores).number_of_users
          = some (index + lines.length) := by
  intro lines
  induction lines with
  | nil =>
    intro index stores _
    simp [readUsersLoop]
  | cons l rest ih =>
    intro index stores hgood
    obtain ⟨hu, hb, hsplit, hcu, hcb, hdec⟩ := hgood l (List.mem_cons_self _ _)
    have hu58 : ∀ x ∈ l.takeWhile (fun c => c ≠ 58), x ≠ 58 := by
      intro x hx
      have := List.mem_takeWhile_imp hx
      simpa using this
    have hb58 : ∀ x ∈ (l.dropWhile (fun c => c ≠ 58)).drop 1, x ≠ 58 :=
      fun x hx => (hcb x hx).2.2.2
    have hallchars : ∀ x ∈ l, isspaceB x = false ∧ x ≠ 59 ∧ x ≠ 35 := by
      intro x hx
      rw [hsplit] at hx
      rcases List.mem_append.mp hx with h | h
      · have hg := hcu x h
        exact ⟨by simpa using hg.1, hg.2.1, hg.2.2⟩
      · rcases List.mem_cons.mp h with rfl | h2
        · exact ⟨by decide, by decide, by decide⟩
        · have hg := hcb x h2
          exact ⟨by simpa using hg.1, hg.2.1, hg.2.2.1⟩
    have hne : l ≠ [] := by
      rw [hsplit]
      intro hcontra
      rcases List.append_eq_nil.mp hcontra with ⟨_, h2⟩
      cases h2
    have hmem58 : (58 : Nat) ∈ l := by
      rw [hsplit]
      exact List.mem_append.mpr (Or.inr (List.mem_cons_self _ _))
    have hempty : is_empty_string l = false := by
      simp only [is_empty_string]
      rw [List.all_eq_false]
      exact ⟨58, hmem58, by decide⟩
    simp only [readUsersLoop]
    rw [hempty]
    simp only [Bool.false_eq_true, if_false]
    rw [rlwac_good l hallchars hne, hempty]
    simp only [Bool.false_eq_true, if_false]
    have hsplitc : splitOnColon l
        = [l.takeWhile (fun c => c ≠ 58), (l.dropWhile (fun c => c ≠ 58)).drop 1] := by
      conv_lhs => rw [hsplit]
      exact splitOnColon_split _ _ hu58 hb58
    rw [hsplitc]
    have hfilter : ([l.takeWhile (fun c => c ≠ 58),
        (l.dropWhile (fun c => c ≠ 58)).drop 1].filter (fun t => t ≠ []))
        = [l.takeWhile (fun c => c ≠ 58), (l.dropWhile (fun c => c ≠ 58)).drop 1] := by
      rw [List.filter_cons, if_pos (by exact decide_eq_true hu), List.filter_cons,
        if_pos (by exact decide_eq_true hb), List.filter_nil]
    rw [hfilter]
    obtain ⟨pw, hpw⟩ := Option.isSome_iff_exists.mp hdec
    simp only [hpw]
    have harith : index + 1 + rest.length = index + (l :: rest).length := by
      simp
      omega
    constructor
    · rw [(ih (index + 1) _ (fun x hx => hgood x (List.mem_cons_of_mem _ hx))).1, harith]
    · rw [(ih (index + 1) _ (fun x hx => hgood x (List.mem_cons_of_mem _ hx))).2, harith]

/-- Claim C7: a readable users file whose lines are all valid
username:payload entries that decode and decrypt successfully, with more than
NUMBER_OF_USERS = 64 such lines, makes pgvictoria_read_users_configuration
return status 3 (the user-count-exceeded status, distinct from status 1 for
open or parse failures and from status 2 for a missing master key). -/
theorem claim_C7_users_file_bound (masterKey : List Nat)
    (dec : List Nat → Option (List Nat)) (lines : List (List Nat))
    (hgood : ∀ l ∈ lines, lineGood dec l) (hcount : 64 < lines.length) :
    (pgvictoria_read_users_configuration true (some masterKey) dec lines).status = 3 := by
  simp only [pgvictoria_read_users_configuration, not_true, if_false]
  rw [(readUsersLoop_good dec lines 0 [] hgood).1]
  rw [if_pos (by omega)]

/-- Witness for claim C7 at a 66-line users file with the identity decryption
oracle. -/
theorem claim_C7_witness :
    (pgvictoria_read_users_configuration true (some [107]) decId linesC7).status = 3 :=
  claim_C7_users_file_bound [107] decId linesC7 (by decide) (by decide)

/-- Claim C8: for every mode and buffer, when the selected cipher (the same
one on both paths, including the fallback of get_cipher_buffer to AES-256-CBC
for the CTR modes) round-trips under the derived key and iv, decrypting the
result of pgvictoria_encrypt_buffer with pgvictoria_decrypt_buffer under the
same master key yields the original bytes, the reported res_size equals the
original size, and the decrypted output carries a single trailing NUL byte
immediately past res_size.  The cipher itself is OpenSSL EVP, external to the
repository; the hypotheses state its standard contract. -/
theorem claim_C8_encrypt_decrypt_identity (c256 c192 c128 : BufCipher)
    (derive : Nat → List Nat → Option (List Nat × List Nat))
    (mk key iv : List Nat) (mode : Nat) (b eu ef du df : List Nat)
    (hderive : derive mode mk = some (key, iv))
    (henc : (get_cipher_buffer c256 c192 c128 mode).run true key iv b = some (eu, ef))
    (hdec : (get_cipher_buffer c256 c192 c128 mode).run false key iv (eu ++ ef)
        = some (du, df))
    (hrt : du ++ df = b) :
    pgvictoria_encrypt_buffer c256 c192 c128 derive (some mk) b mode
        = some (eu ++ ef, eu.length + ef.length) ∧
      pgvictoria_decrypt_buffer c256 c192 c128 derive (some mk) (eu ++ ef) mode
        = some (b ++ [0], b.length) := by
  constructor
  · simp [pgvictoria_encrypt_buffer, encrypt_decrypt_buffer, hderive, henc]
  · simp only [pgvictoria_decrypt_buffer, encrypt_decrypt_buffer, hderive, hdec]
    subst hrt
    simp [List.append_assoc]

/-- Witness for claim C8 with a concrete round-tripping cipher (reversal), a
CTR mode exercising the fallback, and the buffer 1 2 3. -/
theorem claim_C8_witness :
    pgvictoria_encrypt_buffer revCipher revCipher revCipher deriveC8 (some [7]) [1, 2, 3] 4
        = some ([3, 2, 1] ++ [], 3) ∧
      pgvictoria_decrypt_buffer revCipher revCipher revCipher deriveC8 (some [7])
          ([3, 2, 1] ++ []) 4
        = some ([1, 2, 3] ++ [0], 3) :=
  claim_C8_encrypt_decrypt_identity revCipher revCipher revCipher deriveC8
    [7] [7] [7] 4 [1, 2, 3] [3, 2, 1] [] [1, 2, 3] [] rfl rfl rfl rfl

lemma strip_extension_isSome (s : String) :
    ∃ t, pgvictoria_strip_extension s = some t := by
  simp only [pgvictoria_strip_extension]
  by_cases hdot : s.data.contains '.' = true
  · exact ⟨_, if_pos hdot⟩
  · exact ⟨_, if_neg hdot⟩

/-- Claim C9: whenever the source file exists, pgvictoria_encrypt_file and
pgvictoria_decrypt_file return 0 and delete the source file, for EVERY
behaviour of the internal encrypt_file helper (its status, the second
component of the helper result, is never consulted): the source is removed
and success is reported even when the cipher operation fails. -/
theorem claim_C9_file_ops_ignore_helper_status
    (helper : List String → List String × Bool) (fs : List String)
    (fromP : String) (toP : Option String)
    (h : pgvictoria_exists fs fromP = true) :
    ((pgvictoria_encrypt_file helper fs fromP toP).2 = 0 ∧
      pgvictoria_exists (pgvictoria_encrypt_file helper fs fromP toP).1 fromP = false) ∧
    ((pgvictoria_decrypt_file helper fs fromP toP).2 = 0 ∧
      pgvictoria_exists (pgvictoria_decrypt_file helper fs fromP toP).1 fromP = false) := by
  have hdel : ∀ l : List String, pgvictoria_exists (pgvictoria_delete_file l fromP) fromP
      = false := by
    intro l
    simp only [pgvictoria_exists, pgvictoria_delete_file]
    rw [List.contains_eq_any_beq, List.any_eq_false]
    intro q hq
    have hqn := (List.mem_filter.mp hq).2
    simp only [decide_eq_true_eq] at hqn
    simp only [beq_iff_eq]
    exact fun hqq => hqn hqq.symm
  have hcase : ∀ l : List String,
      pgvictoria_exists
        (if pgvictoria_exists l fromP then pgvictoria_delete_file l fromP else l) fromP
        = false := by
    intro l
    by_cases hl : pgvictoria_exists l fromP
    · rw [if_pos hl]
      exact hdel l
    · rw [if_neg hl]
      simpa using hl
  obtain ⟨t0, ht0⟩ := strip_extension_isSome fromP
  refine ⟨⟨?_, ?_⟩, ?_, ?_⟩
  · simp [pgvictoria_encrypt_file, h]
  · simp only [pgvictoria_encrypt_file, h, not_true, if_false]
    exact hcase (helper fs).1
  · simp only [pgvictoria_decrypt_file, h, not_true, if_false]
    cases toP with
    | none => rw [ht0]
    | some t => rfl
  · simp only [pgvictoria_decrypt_file, h, not_true, if_false]
    cases toP with
    | none =>
      rw [ht0]
      exact hcase (helper fs).1
    | some t =>
      exact hcase (helper fs).1

/-- Witness for claim C9: a one-file filesystem and a helper that reports
cipher failure; both wrappers still return 0 and delete the source. -/
theorem claim_C9_witness :
    ((pgvictoria_encrypt_file failingHelper ["a.b"] "a.b" none).2 = 0 ∧
      pgvictoria_exists (pgvictoria_encrypt_file failingHelper ["a.b"] "a.b" none).1 "a.b"
        = false) ∧
    ((pgvictoria_decrypt_file failingHelper ["a.b"] "a.b" none).2 = 0 ∧
      pgvictoria_exists (pgvictoria_decrypt_file failingHelper ["a.b"] "a.b" none).1 "a.b"
        = false) :=
  claim_C9_file_ops_ignore_helper_status failingHelper ["a.b"] "a.b" none (by decide)

end Pgvictoria
